import Mathlib

/-
Verification of the rust_blockchain consensus engine against its specification.

The Rust sources are shallowly embedded: u64/u16 become Nat (with explicit
mod-2^w wrapping where the source can overflow), i64 intermediate arithmetic
from blockchain.rs (`inputs_total`, the fee computation) is modelled with a
wrapping i64 carrier over Int, 32-byte hashes become `List Nat` of length 32,
and the external cryptographic primitives (SHA-256 via the sha2 crate, secp256k1
ECDSA via the k256 crate, bincode serialization) are abstracted into an
environment `Env` of function parameters, since their definitions live outside
this repository.  Operations that can panic in Rust (slicing `transactions[1..]`
of an empty vector, `chain.last().unwrap()`) return `Option`, with `none`
standing for a panic.
-/

namespace RB

abbrev Byte := Nat

abbrev Hash := List Nat

/-- errors.rs `TransactionError` (block.rs additionally uses a `DoubleSpend`
variant for the intra-block double-spend check, included here). -/
inductive TransactionError where
  | InvalidPublicKey
  | InvalidSignature
  | SignatureVerificationFailed
  | InvalidID
  | InvalidTimestamp
  | ZeroValueOutput
  | DuplicateInput
  | DuplicateOutput
  | EmptyInputs
  | EmptyOutputs
  | InvalidCoinbase
  | InvalidUTXO
  | Overspend
  | UnauthorizedSpend
  | DoubleSpend
deriving DecidableEq, Repr

/-- errors.rs `BlockValidationError`. -/
inductive BlockValidationError where
  | InvalidPreviousHash
  | InvalidIndex
  | InvalidTimestamp
  | InvalidProofOfWork
  | HashDigestMismatch
  | TimestampInFuture
  | InvalidTransactions (e : TransactionError)
deriving DecidableEq, Repr

/-- transaction.rs `TxInput`: txid, output index (u16), signature, pubkey. -/
structure TxInput where
  txid : Hash
  output : Nat
  signature : List Nat
  pubkey : List Nat
deriving DecidableEq, Repr

/-- transaction.rs `TxOutput`: value (u64) and pkhash. -/
structure TxOutput where
  value : Nat
  pkhash : Hash
deriving DecidableEq, Repr

/-- transaction.rs `Transaction`. -/
structure Transaction where
  id : Hash
  timestamp : Nat
  inputs : List TxInput
  outputs : List TxOutput
deriving DecidableEq, Repr

/-- block.rs `Block`. -/
structure Block where
  digest : Hash
  index : Nat
  timestamp : Nat
  prev_hash : Hash
  target : Hash
  transactions : List Transaction
  nonce : Nat
deriving DecidableEq, Repr

/-- Abstraction of the external cryptographic and clock collaborators:
`txHashFn`/`blockHashFn` stand for SHA-256 of the record's bincode encoding
(the embedding zeroes the self-referential id/digest field before applying
them, mirroring `as_bincode_no_id`/`as_bincode_no_digest`), `sha256` hashes
a public-key byte string, `sigVerify` is per-input ECDSA verification
(`TxInput::verify_signature`), `encPoint` is `to_encoded_point(compressed)`
of a secp256k1 key, and `now` is `utils::unix_timestamp()`. -/
structure Env where
  txHashFn : Transaction → Hash
  blockHashFn : Block → Hash
  sha256 : List Nat → Hash
  sigVerify : TxInput → Except TransactionError Unit
  encPoint : Bool → Nat → List Nat
  now : Nat

instance : DecidableEq (Except TransactionError Unit) := fun a b =>
  match a, b with
  | Except.ok x, Except.ok y =>
      if h : x = y then isTrue (by rw [h]) else isFalse (by intro hc; cases hc; exact h rfl)
  | Except.error x, Except.error y =>
      if h : x = y then isTrue (by rw [h]) else isFalse (by intro hc; cases hc; exact h rfl)
  | Except.ok _, Except.error _ => isFalse (by intro hc; cases hc)
  | Except.error _, Except.ok _ => isFalse (by intro hc; cases hc)

instance : DecidableEq (Except BlockValidationError Unit) := fun a b =>
  match a, b with
  | Except.ok x, Except.ok y =>
      if h : x = y then isTrue (by rw [h]) else isFalse (by intro hc; cases hc; exact h rfl)
  | Except.error x, Except.error y =>
      if h : x = y then isTrue (by rw [h]) else isFalse (by intro hc; cases hc; exact h rfl)
  | Except.ok _, Except.error _ => isFalse (by intro hc; cases hc)
  | Except.error _, Except.ok _ => isFalse (by intro hc; cases hc)

/-- Big-endian unsigned integer value of a byte string
(`BigUint::from_bytes_be` in utils.rs). -/
def fromBytesBE : List Nat → Nat
  | [] => 0
  | b :: bs => b * 256 ^ bs.length + fromBytesBE bs

/-- utils.rs `hash_less_than_target`: numeric comparison of the two byte
strings interpreted as big-endian unsigned integers (the hex-decoding step
of the source is elided: arguments here are the decoded bytes). -/
def hash_less_than_target (h t : List Nat) : Bool :=
  decide (fromBytesBE h < fromBytesBE t)

/-- Lexicographic strict order on byte strings: this is exactly how Rust
compares two `[u8; 32]` arrays, as in `self.hash() >= self.target` in
`Block::validate` (block.rs line 129). -/
def lexLt : List Nat → List Nat → Bool
  | [], [] => false
  | [], _ :: _ => true
  | _ :: _, [] => false
  | a :: as, b :: bs => if a < b then true else if b < a then false else lexLt as bs

/-- Wrap an integer into the i64 range, as Rust release-mode i64 arithmetic
and the `as i64` cast do. -/
def i64wrap (x : Int) : Int := (x + 2 ^ 63) % 2 ^ 64 - 2 ^ 63

/-- The Rust cast `u64_value as i64` (blockchain.rs lines 70, 73): values of
2^63 or more wrap to negative numbers. -/
def u64AsI64 (v : Nat) : Int := i64wrap v

def i64add (a b : Int) : Int := i64wrap (a + b)

def i64sub (a b : Int) : Int := i64wrap (a - b)

abbrev TxKey := Hash × Nat

/-- Modelled from the spec: the UTXO-set component used by blockchain.rs
(`UTXOSet::new/get_utxo/update_with_block/utxos_from_pkhash`) is not present
under src/ (src/src/utxo.rs holds an older transaction-type snapshot instead),
so the mapping keyed by (txid, output index) with unique keys is modelled from
spec section 4.4 as an association list. -/
abbrev UTXOSet := List (TxKey × TxOutput)

/-- Modelled from the spec: `get(txid, index) -> Option<TxOutput>`. -/
def UTXOSet.getUtxo (s : UTXOSet) (t : Hash) (i : Nat) : Option TxOutput :=
  match s.find? (fun e => decide (e.1 = (t, i))) with
  | some e => some e.2
  | none => none

/-- Modelled from the spec: `remove(txid, index)` deletes the entry with the
given key. -/
def UTXOSet.removeKey (s : UTXOSet) (t : Hash) (i : Nat) : UTXOSet :=
  s.filter (fun e => decide (e.1 ≠ (t, i)))

/-- Modelled from the spec: `insert(txid, index, output)` stores the output
under the key, keys staying unique. -/
def UTXOSet.insertEntry (s : UTXOSet) (t : Hash) (i : Nat) (o : TxOutput) : UTXOSet :=
  ((t, i), o) :: s.removeKey t i

/-- Modelled from the spec: one transaction's contribution to `apply_block` —
remove an entry for each of its inputs, then insert an entry for each of its
outputs, keyed by the transaction id and the output's position. -/
def UTXOSet.applyTx (s : UTXOSet) (tx : Transaction) : UTXOSet :=
  let s1 := tx.inputs.foldl (fun acc inp => acc.removeKey inp.txid inp.output) s
  tx.outputs.enum.foldl (fun acc jo => acc.insertEntry tx.id jo.1 jo.2) s1

/-- Modelled from the spec: `update_with_block` / `apply_block` folds every
transaction of the block into the set, in block order. -/
def UTXOSet.update_with_block (s : UTXOSet) (b : Block) : UTXOSet :=
  b.transactions.foldl UTXOSet.applyTx s

/-- transaction.rs `Transaction::hash`: SHA-256 of the bincode encoding of all
fields except `id` (`as_bincode_no_id`); modelled by zeroing the id field
before applying the abstract transaction hash. -/
def Transaction.hashOf (env : Env) (tx : Transaction) : Hash :=
  env.txHashFn { tx with id := List.replicate 32 0 }

/-- transaction.rs `Transaction::verify_signatures`: first failing input wins. -/
def sigsCheck (env : Env) : List TxInput → Except TransactionError Unit
  | [] => Except.ok ()
  | inp :: rest =>
    match env.sigVerify inp with
    | Except.error e => Except.error e
    | Except.ok _ => sigsCheck env rest

/-- transaction.rs `Transaction::verify`, duplicate-input loop: return
`DuplicateInput` at the first input whose (txid, output) pair occurs more
than once among all inputs. -/
def dupInputCheck (all : List TxInput) : List TxInput → Except TransactionError Unit
  | [] => Except.ok ()
  | inp :: rest =>
    if 1 < all.countP (fun i2 => i2.txid == inp.txid && i2.output == inp.output) then
      Except.error TransactionError.DuplicateInput
    else dupInputCheck all rest

/-- transaction.rs `Transaction::verify`, output loop: for each output in
order, first the zero-value check, then the duplicate-pkhash check. -/
def outputsCheck (all : List TxOutput) : List TxOutput → Except TransactionError Unit
  | [] => Except.ok ()
  | o :: rest =>
    if o.value = 0 then Except.error TransactionError.ZeroValueOutput
    else if 1 < all.countP (fun o2 => o2.pkhash == o.pkhash) then
      Except.error TransactionError.DuplicateOutput
    else outputsCheck all rest

/-- transaction.rs `Transaction::verify` (lines 163-195). -/
def Transaction.verify (env : Env) (tx : Transaction) : Except TransactionError Unit :=
  if tx.inputs.isEmpty then Except.error TransactionError.EmptyInputs
  else if tx.outputs.isEmpty then Except.error TransactionError.EmptyOutputs
  else
    match sigsCheck env tx.inputs with
    | Except.error e => Except.error e
    | Except.ok _ =>
      match dupInputCheck tx.inputs tx.inputs with
      | Except.error e => Except.error e
      | Except.ok _ =>
        match outputsCheck tx.outputs tx.outputs with
        | Except.error e => Except.error e
        | Except.ok _ =>
          if tx.id ≠ Transaction.hashOf env tx then Except.error TransactionError.InvalidID
          else if env.now < tx.timestamp then Except.error TransactionError.InvalidTimestamp
          else Except.ok ()

/-- transaction.rs `Transaction::verify_coinbase` (lines 196-202). -/
def Transaction.verify_coinbase (env : Env) (tx : Transaction) : Except TransactionError Unit :=
  if tx.inputs.length ≠ 0 ∨ tx.outputs.length ≠ 1 ∨ tx.id ≠ Transaction.hashOf env tx then
    Except.error TransactionError.InvalidCoinbase
  else Except.ok ()

/-- wallet.rs `Wallet::new`: the wallet's pkhash is SHA-256 of the
uncompressed public-key encoding `to_encoded_point(false)` (65 bytes). -/
def Wallet.pkhashOf (env : Env) (k : Nat) : Hash :=
  env.sha256 (env.encPoint false k)

/-- transaction.rs `TxInput::sign` (line 22): the pubkey stored on the input
is the compressed encoding `to_encoded_point(true)` (33 bytes). -/
def TxInput.signedPubkey (env : Env) (k : Nat) : List Nat :=
  env.encPoint true k

/-- block.rs `Block::hash`: SHA-256 of `as_bincode_no_digest`, i.e. of every
field except the digest; modelled by zeroing the digest field before applying
the abstract block hash. -/
def Block.hashOf (env : Env) (b : Block) : Hash :=
  env.blockHashFn { b with digest := List.replicate 32 0 }

/-- block.rs `Block::get_spent_utxos` (lines 165-173): collects (txid, output)
of every input of `transactions[1..]`; the slice panics (`none`) when the
transactions list is empty. -/
def Block.get_spent_utxos (b : Block) : Option (List TxKey) :=
  match b.transactions with
  | [] => none
  | _ :: rest =>
    some (rest.foldl (fun acc tx => acc ++ tx.inputs.map (fun i => (i.txid, i.output))) [])

/-- block.rs `Block::check_double_spend` (lines 175-180): true when the spent
list has no duplicates (sort + dedup keeps the length exactly when the list is
duplicate-free). -/
def Block.check_double_spend (b : Block) : Option Bool :=
  match b.get_spent_utxos with
  | none => none
  | some l => some (l.eraseDups.length == l.length)

/-- block.rs `Block::validate_transactions` (lines 154-163). -/
def Block.validate_transactions (env : Env) (b : Block) : Except TransactionError Unit :=
  match b.transactions with
  | [] => Except.error TransactionError.InvalidCoinbase
  | cb :: rest =>
    match Transaction.verify_coinbase env cb with
    | Except.error e => Except.error e
    | Except.ok _ => txsCheck rest
where
  txsCheck : List Transaction → Except TransactionError Unit
    | [] => Except.ok ()
    | tx :: rest =>
      match Transaction.verify env tx with
      | Except.error e => Except.error e
      | Except.ok _ => txsCheck rest

/-- block.rs `Block::validate` (lines 128-152): proof-of-work (array
comparison `hash() >= target`), digest match, timestamp-in-future,
intra-block double spend, then per-transaction validation; `none` models the
panic reachable through `check_double_spend` on an empty transactions list. -/
def Block.validate (env : Env) (b : Block) : Option (Except BlockValidationError Unit) :=
  if lexLt (Block.hashOf env b) b.target = false then
    some (Except.error BlockValidationError.InvalidProofOfWork)
  else if b.digest ≠ Block.hashOf env b then
    some (Except.error BlockValidationError.HashDigestMismatch)
  else if env.now < b.timestamp then
    some (Except.error BlockValidationError.TimestampInFuture)
  else
    match b.check_double_spend with
    | none => none
    | some false =>
      some (Except.error (BlockValidationError.InvalidTransactions TransactionError.DoubleSpend))
    | some true =>
      match Block.validate_transactions env b with
      | Except.error e => some (Except.error (BlockValidationError.InvalidTransactions e))
      | Except.ok _ => some (Except.ok ())

/-- block.rs `Block::update_nonce_and_timestamp` (lines 104-114): increment
the nonce (u64), refresh the timestamp from the clock on every 1000th
increment, recompute the digest. -/
def Block.update_nonce_and_timestamp (env : Env) (b : Block) : Block :=
  let n := (b.nonce + 1) % 2 ^ 64
  let ts := if n % 1000 == 0 then env.now else b.timestamp
  let b1 := { b with nonce := n, timestamp := ts }
  { b1 with digest := Block.hashOf env b1 }

/-- block.rs `Block::genesis` (lines 58-72), byte constants decoded from the
hex literals. -/
def genesisDigest : Hash :=
  [0, 9, 78, 194, 41, 75, 8, 239, 245, 218, 156, 113, 63, 157, 124, 189,
   181, 184, 66, 67, 176, 224, 63, 24, 66, 189, 254, 124, 201, 166, 111, 205]

def initialTarget : Hash := 0 :: 15 :: List.replicate 30 255

def Block.genesis : Block :=
  { digest := genesisDigest
    index := 0
    timestamp := 1747162780
    prev_hash := List.replicate 32 0
    target := initialTarget
    transactions := []
    nonce := 8376 }

/-- blockchain.rs `Blockchain`. -/
structure Blockchain where
  chain : List Block
  target : Hash
  utxos : UTXOSet
deriving DecidableEq, Repr

/-- blockchain.rs `Blockchain::new` (lines 17-25). -/
def Blockchain.new : Blockchain :=
  { chain := [Block.genesis], target := initialTarget, utxos := [] }

/-- blockchain.rs `Blockchain::get_block_reward` (lines 27-29). -/
def Blockchain.get_block_reward (_bc : Blockchain) : Nat := 50000000

/-- blockchain.rs `Blockchain::prev_hash` (lines 98-103). -/
def Blockchain.prev_hash (bc : Blockchain) : Hash :=
  match bc.chain.getLast? with
  | some b => b.digest
  | none => []

/-- blockchain.rs `validate_transactions_stateful`, inner input loop (lines
57-71): UTXO existence, then authorization (SHA-256 of the input's pubkey
against the referenced output's pkhash), accumulating `inputs_total` in
(wrapping) i64 arithmetic with the `as i64` cast. -/
def checkInputs (env : Env) (bc : Blockchain) :
    List TxInput → Int → Except TransactionError Int
  | [], acc => Except.ok acc
  | inp :: rest, acc =>
    match bc.utxos.getUtxo inp.txid inp.output with
    | none => Except.error TransactionError.InvalidUTXO
    | some utxo =>
      if env.sha256 inp.pubkey ≠ utxo.pkhash then
        Except.error TransactionError.UnauthorizedSpend
      else checkInputs env bc rest (i64add acc (u64AsI64 utxo.value))

/-- blockchain.rs `validate_transactions_stateful`, output sum (line 73):
`tx.outputs.iter().map(|o| o.value as i64).sum::<i64>()`. -/
def outputsTotalI64 (outs : List TxOutput) : Int :=
  outs.foldl (fun acc o => i64add acc (u64AsI64 o.value)) 0

/-- blockchain.rs `validate_transactions_stateful`, one transaction of the
outer loop (lines 54-76): input checks, then the fee non-negativity check. -/
def checkTx (env : Env) (bc : Blockchain) (tx : Transaction) : Except TransactionError Unit :=
  match checkInputs env bc tx.inputs 0 with
  | Except.error e => Except.error e
  | Except.ok total =>
    if i64sub total (outputsTotalI64 tx.outputs) < 0 then
      Except.error TransactionError.Overspend
    else Except.ok ()

def checkTxs (env : Env) (bc : Blockchain) : List Transaction → Except TransactionError Unit
  | [] => Except.ok ()
  | tx :: rest =>
    match checkTx env bc tx with
    | Except.error e => Except.error e
    | Except.ok _ => checkTxs env bc rest

/-- blockchain.rs `validate_transactions_stateful` (lines 47-80): iterates
over `block.transactions[1..]` (the slice panics, `none`, when the list is
empty); note the coinbase reward is never checked (`TODO` at line 52). -/
def Blockchain.validate_transactions_stateful (env : Env) (bc : Blockchain) (b : Block) :
    Option (Except TransactionError Unit) :=
  match b.transactions with
  | [] => none
  | _ :: rest => some (checkTxs env bc rest)

/-- blockchain.rs `validate_block` (lines 82-96): block self-validation,
stateful transaction validation, then previous-hash, index and timestamp
linkage against the chain tip (`chain.last().unwrap()`, `none` on empty). -/
def Blockchain.validate_block (env : Env) (bc : Blockchain) (b : Block) :
    Option (Except BlockValidationError Unit) :=
  match Block.validate env b with
  | none => none
  | some (Except.error e) => some (Except.error e)
  | some (Except.ok _) =>
    match bc.validate_transactions_stateful env b with
    | none => none
    | some (Except.error e) =>
      some (Except.error (BlockValidationError.InvalidTransactions e))
    | some (Except.ok _) =>
      if b.prev_hash ≠ bc.prev_hash then
        some (Except.error BlockValidationError.InvalidPreviousHash)
      else
        match bc.chain.getLast? with
        | none => none
        | some tip =>
          if b.index ≠ tip.index + 1 then
            some (Except.error BlockValidationError.InvalidIndex)
          else if b.timestamp < tip.timestamp then
            some (Except.error BlockValidationError.InvalidTimestamp)
          else some (Except.ok ())

/-- blockchain.rs `add_block` (lines 40-45): validate, then fold the block
into the UTXO set and append it to the chain; the `?` operator returns before
any mutation, so on error the state is returned untouched. -/
def Blockchain.add_block (env : Env) (bc : Blockchain) (b : Block) :
    Option (Blockchain × Option BlockValidationError) :=
  match bc.validate_block env b with
  | none => none
  | some (Except.error e) => some (bc, some e)
  | some (Except.ok _) =>
    some ({ bc with utxos := bc.utxos.update_with_block b, chain := bc.chain ++ [b] }, none)

/-! Concrete fixtures: an explicit environment instantiating the abstracted
cryptographic collaborators, and small blocks/chain states used to evaluate
the embedded operations at concrete inputs. -/

def z32 : Hash := List.replicate 32 0

def ff32 : Hash := List.replicate 32 255

def sig0 : List Nat := List.replicate 64 0

/-- A concrete environment: transaction hashes are determined by the
timestamp byte, block hashes by nonce parity (even nonce hashes to all-zero,
which satisfies the genesis target; odd nonce hashes to all-0xff, which fails
it), `sha256` pads/truncates to 32 bytes, every signature verifies, and the
two point encodings produce distinct byte strings. -/
def env0 : Env :=
  { txHashFn := fun tx => List.replicate 31 0 ++ [tx.timestamp % 256]
    blockHashFn := fun b => if b.nonce % 2 == 1 then ff32 else z32
    sha256 := fun l => (l ++ List.replicate 32 0).take 32
    sigVerify := fun _ => Except.ok ()
    encPoint := fun c k => if c then [2, k % 256] else [4, k % 256, k % 256]
    now := 2000000000 }

def tid (n : Nat) : Hash := List.replicate 31 0 ++ [n]

def pkA : Hash := [2, 5] ++ List.replicate 30 0

def pkQ : Hash := List.replicate 32 3

def cb0 : Transaction := ⟨tid 1, 1, [], [⟨50000000, pkA⟩]⟩

def B0 : Block := ⟨z32, 1, 1747162781, genesisDigest, initialTarget, [cb0], 0⟩

def S1 : Blockchain :=
  ⟨[Block.genesis, B0], initialTarget, [((tid 1, 0), ⟨50000000, pkA⟩)]⟩

def cb1 : Transaction := ⟨tid 2, 2, [], [⟨50000000, pkA⟩]⟩

def inp1 : TxInput := ⟨tid 1, 0, sig0, [2, 5]⟩

def tx1 : Transaction := ⟨tid 3, 3, [inp1], [⟨100, pkQ⟩]⟩

def B1 : Block := ⟨z32, 2, 1747162782, z32, initialTarget, [cb1, tx1], 0⟩

def S2 : Blockchain :=
  ⟨[Block.genesis, B0, B1], initialTarget,
   [((tid 3, 0), ⟨100, pkQ⟩), ((tid 2, 0), ⟨50000000, pkA⟩)]⟩

def cb2 : Transaction := ⟨tid 4, 4, [], [⟨50000000, pkA⟩]⟩

def tx2 : Transaction := ⟨tid 5, 5, [inp1], [⟨10, pkQ⟩]⟩

def B2 : Block := ⟨ff32, 3, 1747162783, z32, initialTarget, [cb2, tx2], 1⟩

def cb3 : Transaction := ⟨tid 6, 6, [], [⟨50000000, pkA⟩]⟩

def tx3 : Transaction := ⟨tid 7, 7, [inp1], [⟨10, pkQ⟩]⟩

def B3 : Block := ⟨z32, 3, 1747162783, z32, initialTarget, [cb3, tx3], 0⟩

def B4 : Block := ⟨z32, 2, 1747162781, genesisDigest, initialTarget, [cb0], 0⟩

def cb1000 : Transaction := ⟨tid 9, 9, [], [⟨1000, pkA⟩]⟩

def B1000 : Block := ⟨z32, 1, 1747162781, genesisDigest, initialTarget, [cb1000], 0⟩

def S1000 : Blockchain :=
  ⟨[Block.genesis, B1000], initialTarget, [((tid 9, 0), ⟨1000, pkA⟩)]⟩

def bEmpty : Block := ⟨z32, 1, 100, z32, initialTarget, [], 0⟩

def tC2 : Hash := List.replicate 32 8

def utxoC2 : TxOutput := ⟨50, [4, 5, 5] ++ List.replicate 29 0⟩

def inpC2 : TxInput := ⟨tC2, 0, sig0, [2, 5]⟩

def txC2 : Transaction := ⟨tid 8, 8, [inpC2], [⟨40, pkQ⟩]⟩

def cbC2 : Transaction := ⟨tid 10, 10, [], [⟨50000000, pkA⟩]⟩

def BC2 : Block := ⟨z32, 2, 1747162782, z32, initialTarget, [cbC2, txC2], 0⟩

def bcC2 : Blockchain := ⟨[Block.genesis], initialTarget, [((tC2, 0), utxoC2)]⟩

def pk5 : Hash := List.replicate 32 6

def inp5 : TxInput := ⟨tid 11, 0, sig0, [2, 9]⟩

def txC5 : Transaction := ⟨tid 12, 12, [inp5], [⟨5, pk5⟩, ⟨0, pk5⟩]⟩

def txW5 : Transaction := ⟨tid 13, 13, [inp5], [⟨0, pk5⟩, ⟨3, pk5⟩]⟩

def tC8 : Hash := List.replicate 32 9

def pkC8 : Hash := [2, 9] ++ List.replicate 30 0

def inpC8 : TxInput := ⟨tC8, 0, sig0, [2, 9]⟩

def bcC8 : Blockchain :=
  ⟨[Block.genesis], initialTarget, [((tC8, 0), ⟨2 ^ 63 + 5, pkC8⟩)]⟩

def txC8 : Transaction := ⟨tid 14, 14, [inpC8], [⟨1, pkQ⟩]⟩

def bcW8 : Blockchain :=
  ⟨[Block.genesis], initialTarget, [((tC8, 0), ⟨30, pkC8⟩)]⟩

def txW8 : Transaction := ⟨tid 15, 15, [inpC8], [⟨40, pkQ⟩]⟩


/-- C1: contrary to the claim, `validate_transactions_stateful` never compares
the coinbase output's value with `get_block_reward()` (the loop starts at
`transactions[1..]` and the coinbase check is an unimplemented `TODO`): a block
whose single coinbase output is worth 1000 — not the 50 000 000 reward — passes
every check and is accepted by `add_block` on a fresh chain, instead of being
rejected with `InvalidTransactions(InvalidCoinbase)`. -/
theorem coinbase_reward_unchecked :
    cb1000.outputs.map (fun o => o.value) = [1000] ∧
    B1000.transactions = [cb1000] ∧
    Blockchain.get_block_reward Blockchain.new = 50000000 ∧
    Blockchain.add_block env0 Blockchain.new B1000 = some (S1000, none) :=
  ⟨rfl, rfl, rfl, by decide⟩

/-- C3: `add_block` is atomic — whenever it returns an error, the returned
state is exactly the input state (chain and UTXO set untouched), and only on
success are the block's effects folded into the UTXO set and the block
appended to the chain. -/
theorem add_block_atomic (env : Env) (bc : Blockchain) (b : Block) :
    (∀ bc' e, Blockchain.add_block env bc b = some (bc', some e) → bc' = bc) ∧
    (∀ bc', Blockchain.add_block env bc b = some (bc', none) →
      bc'.utxos = bc.utxos.update_with_block b ∧ bc'.chain = bc.chain ++ [b]) := by
  constructor
  · intro bc' e h
    cases hv : Blockchain.validate_block env bc b with
    | none => simp [Blockchain.add_block, hv] at h
    | some r =>
      cases r with
      | error e2 =>
        simp [Blockchain.add_block, hv] at h
        exact h.1.symm
      | ok u => simp [Blockchain.add_block, hv] at h
  · intro bc' h
    cases hv : Blockchain.validate_block env bc b with
    | none => simp [Blockchain.add_block, hv] at h
    | some r =>
      cases r with
      | error e2 => simp [Blockchain.add_block, hv] at h
      | ok u =>
        simp [Blockchain.add_block, hv] at h
        rw [← h]
        exact ⟨rfl, rfl⟩

/-- C3 witness: a rejected block (bad proof-of-work) leaves the fresh chain
untouched, and an accepted block's effects are exactly the UTXO fold plus the
chain append. -/
theorem add_block_atomic_witness :
    Blockchain.new = Blockchain.new ∧
    (S1.utxos = Blockchain.new.utxos.update_with_block B0 ∧
     S1.chain = Blockchain.new.chain ++ [B0]) :=
  ⟨(add_block_atomic env0 Blockchain.new B2).1 Blockchain.new
      BlockValidationError.InvalidProofOfWork (by decide),
   (add_block_atomic env0 Blockchain.new B0).2 S1 (by decide)⟩

/-- C9: for a block with an empty transactions list that passes the
proof-of-work, digest-match and timestamp checks, `Block::validate` reaches
the intra-block double-spend check, whose `transactions[1..]` slice panics
(modelled as `none`) instead of producing the typed
`InvalidTransactions(InvalidCoinbase)` that the (unreachable) empty-list
branch of `validate_transactions` would return. -/
theorem validate_panics_on_empty_transactions (env : Env) (b : Block)
    (h1 : b.transactions = [])
    (h2 : lexLt (Block.hashOf env b) b.target = true)
    (h3 : b.digest = Block.hashOf env b)
    (h4 : b.timestamp ≤ env.now) :
    Block.validate env b = none ∧
    Block.validate_transactions env b = Except.error TransactionError.InvalidCoinbase := by
  constructor
  · unfold Block.validate
    rw [if_neg (by simp [h2]), if_neg (by simp [h3]), if_neg (by simp [Nat.not_lt.mpr h4])]
    unfold Block.check_double_spend Block.get_spent_utxos
    rw [h1]
  · unfold Block.validate_transactions
    rw [h1]

/-- C9 witness: the panic at a concrete empty block that satisfies the three
leading checks. -/
theorem validate_panics_on_empty_transactions_witness :
    Block.validate env0 bEmpty = none ∧
    Block.validate_transactions env0 bEmpty = Except.error TransactionError.InvalidCoinbase :=
  validate_panics_on_empty_transactions env0 bEmpty (by decide) (by decide) (by decide)
    (by decide)

/-- C10: one `update_nonce_and_timestamp` call increments the nonce by
exactly 1 (below the u64 wrap), refreshes the timestamp to the current time
exactly when the incremented nonce is a multiple of 1000, recomputes the
digest as the hash of the updated block, and leaves index, prev_hash, target
and the transactions sequence unchanged. -/
theorem update_nonce_and_timestamp_spec (env : Env) (b : Block)
    (h : b.nonce + 1 < 2 ^ 64) :
    (Block.update_nonce_and_timestamp env b).nonce = b.nonce + 1 ∧
    (Block.update_nonce_and_timestamp env b).timestamp =
      (if (b.nonce + 1) % 1000 = 0 then env.now else b.timestamp) ∧
    (Block.update_nonce_and_timestamp env b).digest =
      Block.hashOf env (Block.update_nonce_and_timestamp env b) ∧
    (Block.update_nonce_and_timestamp env b).index = b.index ∧
    (Block.update_nonce_and_timestamp env b).prev_hash = b.prev_hash ∧
    (Block.update_nonce_and_timestamp env b).target = b.target ∧
    (Block.update_nonce_and_timestamp env b).transactions = b.transactions := by
  unfold Block.update_nonce_and_timestamp
  simp only [Nat.mod_eq_of_lt h, Block.hashOf]
  by_cases hm : (b.nonce + 1) % 1000 = 0 <;> simp [hm]

/-- C10 witness: evaluating the mining step on a concrete block (nonce 0 → 1,
timestamp unchanged since 1 is not a multiple of 1000, digest recomputed). -/
theorem update_nonce_and_timestamp_spec_witness :
    (Block.update_nonce_and_timestamp env0 B0).nonce = B0.nonce + 1 ∧
    (Block.update_nonce_and_timestamp env0 B0).timestamp =
      (if (B0.nonce + 1) % 1000 = 0 then env0.now else B0.timestamp) ∧
    (Block.update_nonce_and_timestamp env0 B0).digest =
      Block.hashOf env0 (Block.update_nonce_and_timestamp env0 B0) ∧
    (Block.update_nonce_and_timestamp env0 B0).index = B0.index ∧
    (Block.update_nonce_and_timestamp env0 B0).prev_hash = B0.prev_hash ∧
    (Block.update_nonce_and_timestamp env0 B0).target = B0.target ∧
    (Block.update_nonce_and_timestamp env0 B0).transactions = B0.transactions :=
  update_nonce_and_timestamp_spec env0 B0 (by decide)

abbrev Bytes32 (l : List Nat) : Prop := l.length = 32 ∧ ∀ x ∈ l, x < 256

theorem fromBytesBE_lt_pow (l : List Nat) (h : ∀ x ∈ l, x < 256) :
    fromBytesBE l < 256 ^ l.length := by
  induction l with
  | nil => simp [fromBytesBE]
  | cons b bs ih =>
    have hb : b < 256 := h b (by simp)
    have hr : fromBytesBE bs < 256 ^ bs.length := ih (fun x hx => h x (by simp [hx]))
    simp only [fromBytesBE, List.length_cons]
    have h1 : b * 256 ^ bs.length + 256 ^ bs.length = (b + 1) * 256 ^ bs.length := by ring
    have h2 : (b + 1) * 256 ^ bs.length ≤ 256 * 256 ^ bs.length :=
      Nat.mul_le_mul_right _ (by omega)
    have h3 : 256 * 256 ^ bs.length = 256 ^ (bs.length + 1) := by ring
    linarith

theorem lexLt_iff_fromBytesBE : ∀ (h t : List Nat), h.length = t.length →
    (∀ x ∈ h, x < 256) → (∀ x ∈ t, x < 256) →
    (lexLt h t = true ↔ fromBytesBE h < fromBytesBE t) := by
  intro h
  induction h with
  | nil =>
    intro t hlen _ _
    cases t with
    | nil => simp [lexLt, fromBytesBE]
    | cons b bs => simp at hlen
  | cons a as ih =>
    intro t hlen hh ht
    cases t with
    | nil => simp at hlen
    | cons b bs =>
      have hlen2 : as.length = bs.length := by simpa using hlen
      have h1 : fromBytesBE as < 256 ^ bs.length := by
        rw [← hlen2]; exact fromBytesBE_lt_pow as (fun x hx => hh x (by simp [hx]))
      have h2 : fromBytesBE bs < 256 ^ bs.length :=
        fromBytesBE_lt_pow bs (fun x hx => ht x (by simp [hx]))
      simp only [lexLt, fromBytesBE, hlen2]
      by_cases hab : a < b
      · rw [if_pos hab]
        have hm : (a + 1) * 256 ^ bs.length ≤ b * 256 ^ bs.length :=
          Nat.mul_le_mul_right _ (by omega)
        have hs : a * 256 ^ bs.length + 256 ^ bs.length = (a + 1) * 256 ^ bs.length := by ring
        constructor
        · intro _; linarith
        · intro _; rfl
      · rw [if_neg hab]
        by_cases hba : b < a
        · rw [if_pos hba]
          have hm : (b + 1) * 256 ^ bs.length ≤ a * 256 ^ bs.length :=
            Nat.mul_le_mul_right _ (by omega)
          have hs : b * 256 ^ bs.length + 256 ^ bs.length = (b + 1) * 256 ^ bs.length := by ring
          constructor
          · intro hfalse; cases hfalse
          · intro hlt; exfalso; linarith
        · have hab2 : a = b := by omega
          subst hab2
          rw [if_neg hba]
          rw [ih bs hlen2 (fun x hx => hh x (by simp [hx])) (fun x hx => ht x (by simp [hx]))]
          exact (add_lt_add_iff_left _).symm

theorem validate_eq_invalidPoW_iff (env : Env) (b : Block) :
    Block.validate env b = some (Except.error BlockValidationError.InvalidProofOfWork) ↔
      lexLt (Block.hashOf env b) b.target = false := by
  unfold Block.validate
  by_cases hp : lexLt (Block.hashOf env b) b.target = false
  · simp [hp]
  · rw [if_neg hp]
    refine iff_of_false ?_ hp
    by_cases hd : b.digest ≠ Block.hashOf env b
    · simp [hd]
    · rw [if_neg hd]
      by_cases htm : env.now < b.timestamp
      · simp [htm]
      · rw [if_neg htm]
        cases hds : b.check_double_spend with
        | none => simp
        | some okb =>
          cases okb with
          | false => simp
          | true =>
            cases hvt : Block.validate_transactions env b with
            | error e => simp [hvt]
            | ok u => simp [hvt]

/-- C6: `hash_less_than_target` agrees with big-endian unsigned integer
comparison on 32-byte strings, and `Block::validate` judges proof-of-work by
exactly this comparison — the array comparison `hash() >= target` returns
`InvalidProofOfWork` precisely when the hash is not numerically below the
target. -/
theorem hash_target_comparison :
    (∀ h t : List Nat, Bytes32 h → Bytes32 t →
      (hash_less_than_target h t = true ↔ fromBytesBE h < fromBytesBE t)) ∧
    (∀ (env : Env) (b : Block), Bytes32 (Block.hashOf env b) → Bytes32 b.target →
      (Block.validate env b = some (Except.error BlockValidationError.InvalidProofOfWork) ↔
        hash_less_than_target (Block.hashOf env b) b.target = false)) := by
  constructor
  · intro h t _ _
    simp [hash_less_than_target]
  · intro env b hh ht
    rw [validate_eq_invalidPoW_iff]
    have hiff := lexLt_iff_fromBytesBE (Block.hashOf env b) b.target
      (by rw [hh.1, ht.1]) hh.2 ht.2
    constructor
    · intro hlex
      simp only [hash_less_than_target, decide_eq_false_iff_not]
      rw [← hiff]
      simp [hlex]
    · intro hcmp
      simp only [hash_less_than_target, decide_eq_false_iff_not] at hcmp
      rw [← hiff] at hcmp
      simp at hcmp
      exact hcmp

/-- C6 witness: the all-zero hash is below the genesis target, and a concrete
block whose hash is all-0xff is rejected with `InvalidProofOfWork`. -/
theorem hash_target_comparison_witness :
    hash_less_than_target z32 initialTarget = true ∧
    Block.validate env0 B2 = some (Except.error BlockValidationError.InvalidProofOfWork) :=
  ⟨(hash_target_comparison.1 z32 initialTarget (by decide) (by decide)).mpr (by decide),
   (hash_target_comparison.2 env0 B2 (by decide) (by decide)).mpr (by decide)⟩

/-- C7: `validate_block` runs its checks in the fixed order (a) block
self-validation, (b) stateful transaction validation, (c) previous-hash,
(d) index, (e) timestamp, returning the first failure: any error of (a) or
(b) propagates as-is, and once (a) and (b) pass, each chain-linkage error is
returned exactly when the earlier linkage checks pass and its own test fails
— in particular a block whose index is not tip.index + 1 (e.g. skips ahead
by 2) is rejected with `InvalidIndex`. -/
theorem validate_block_order :
    (∀ (env : Env) (bc : Blockchain) (b : Block) (e : BlockValidationError),
      Block.validate env b = some (Except.error e) →
      Blockchain.validate_block env bc b = some (Except.error e)) ∧
    (∀ (env : Env) (bc : Blockchain) (b : Block) (e : TransactionError),
      Block.validate env b = some (Except.ok ()) →
      bc.validate_transactions_stateful env b = some (Except.error e) →
      Blockchain.validate_block env bc b =
        some (Except.error (BlockValidationError.InvalidTransactions e))) ∧
    (∀ (env : Env) (bc : Blockchain) (b : Block) (tip : Block),
      bc.chain.getLast? = some tip →
      Block.validate env b = some (Except.ok ()) →
      bc.validate_transactions_stateful env b = some (Except.ok ()) →
      ((Blockchain.validate_block env bc b =
          some (Except.error BlockValidationError.InvalidPreviousHash) ↔
            b.prev_hash ≠ bc.prev_hash) ∧
       (Blockchain.validate_block env bc b =
          some (Except.error BlockValidationError.InvalidIndex) ↔
            (b.prev_hash = bc.prev_hash ∧ b.index ≠ tip.index + 1)) ∧
       (Blockchain.validate_block env bc b =
          some (Except.error BlockValidationError.InvalidTimestamp) ↔
            (b.prev_hash = bc.prev_hash ∧ b.index = tip.index + 1 ∧
             b.timestamp < tip.timestamp)) ∧
       (Blockchain.validate_block env bc b = some (Except.ok ()) ↔
          (b.prev_hash = bc.prev_hash ∧ b.index = tip.index + 1 ∧
           tip.timestamp ≤ b.timestamp)))) := by
  refine ⟨?_, ?_, ?_⟩
  · intro env bc b e h
    simp [Blockchain.validate_block, h]
  · intro env bc b e hV hS
    simp [Blockchain.validate_block, hV, hS]
  · intro env bc b tip hne hV hS
    by_cases hprev : b.prev_hash = bc.prev_hash
    · by_cases hidx : b.index = tip.index + 1
      · by_cases hts : b.timestamp < tip.timestamp
        · simp [Blockchain.validate_block, hV, hS, hne, hprev, hidx, hts]
        · simp [Blockchain.validate_block, hV, hS, hne, hprev, hidx, hts]
          omega
      · simp [Blockchain.validate_block, hV, hS, hne, hprev, hidx]
    · simp [Blockchain.validate_block, hV, hS, hne, hprev]

/-- C7 witness: against a fresh chain, a bad-proof-of-work block propagates
`InvalidProofOfWork`, a structurally valid block spending a nonexistent UTXO
propagates `InvalidTransactions(InvalidUTXO)`, and a block whose index skips
ahead by 2 is rejected with `InvalidIndex`. -/
theorem validate_block_order_witness :
    Blockchain.validate_block env0 Blockchain.new B2 =
      some (Except.error BlockValidationError.InvalidProofOfWork) ∧
    Blockchain.validate_block env0 Blockchain.new B3 =
      some (Except.error (BlockValidationError.InvalidTransactions
        TransactionError.InvalidUTXO)) ∧
    Blockchain.validate_block env0 Blockchain.new B4 =
      some (Except.error BlockValidationError.InvalidIndex) :=
  ⟨validate_block_order.1 env0 Blockchain.new B2
      BlockValidationError.InvalidProofOfWork (by decide),
   validate_block_order.2.1 env0 Blockchain.new B3 TransactionError.InvalidUTXO
      (by decide) (by decide),
   ((validate_block_order.2.2 env0 Blockchain.new B4 Block.genesis (by decide)
      (by decide) (by decide)).2.1).mpr (by decide)⟩

/-- C2: `Wallet::new` takes the pkhash as SHA-256 of the uncompressed
public-key encoding while `TxInput::sign` stores the compressed encoding in
the input's pubkey, so (under collision-freedom of SHA-256 on the two
distinct encodings, the `hdist` hypothesis) any spend of a UTXO locked to the
wallet's own pkhash, signed by that same wallet, fails the authorization
comparison and is rejected by `add_block` with
`InvalidTransactions(UnauthorizedSpend)` — the legitimate owner can never
spend an output locked to their pkhash. -/
theorem wallet_cannot_spend_own_utxo (env : Env) (k : Nat) (bc : Blockchain)
    (b : Block) (cb tx : Transaction) (rest : List Transaction)
    (inp : TxInput) (irest : List TxInput) (utxo : TxOutput)
    (hpk : inp.pubkey = TxInput.signedPubkey env k)
    (hlock : utxo.pkhash = Wallet.pkhashOf env k)
    (hdist : env.sha256 (TxInput.signedPubkey env k) ≠ Wallet.pkhashOf env k)
    (hutxo : bc.utxos.getUtxo inp.txid inp.output = some utxo)
    (hb : b.transactions = cb :: tx :: rest)
    (hin : tx.inputs = inp :: irest)
    (hV : Block.validate env b = some (Except.ok ())) :
    Blockchain.add_block env bc b =
      some (bc, some (BlockValidationError.InvalidTransactions
        TransactionError.UnauthorizedSpend)) := by
  have hci : checkInputs env bc (inp :: irest) 0 =
      Except.error TransactionError.UnauthorizedSpend := by
    unfold checkInputs
    simp [hutxo, hpk, hlock, hdist]
  have hct : checkTx env bc tx = Except.error TransactionError.UnauthorizedSpend := by
    unfold checkTx
    rw [hin, hci]
  have hstate : bc.validate_transactions_stateful env b =
      some (Except.error TransactionError.UnauthorizedSpend) := by
    unfold Blockchain.validate_transactions_stateful
    rw [hb]
    simp [checkTxs, hct]
  simp [Blockchain.add_block, Blockchain.validate_block, hV, hstate]

/-- C2 witness: a concrete wallet key, a UTXO locked to its (uncompressed)
pkhash, and a block spending it with the (compressed) signed pubkey is
rejected with `UnauthorizedSpend`. -/
theorem wallet_cannot_spend_own_utxo_witness :
    Blockchain.add_block env0 bcC2 BC2 =
      some (bcC2, some (BlockValidationError.InvalidTransactions
        TransactionError.UnauthorizedSpend)) :=
  wallet_cannot_spend_own_utxo env0 5 bcC2 BC2 cbC2 txC2 [] inpC2 [] utxoC2
    (by decide) (by decide) (by decide) (by decide) rfl rfl (by decide)

/-- C5 counterexample: a transaction with non-empty inputs, valid signatures
and no duplicate inputs whose outputs are [(value 5, P), (value 0, P)] — it
contains both a zero-value output and a duplicated pkhash, yet `verify`
returns `DuplicateOutput`, not `ZeroValueOutput`: the zero-value and
duplicate-output checks are interleaved per output, not phased. -/
theorem verify_zero_vs_duplicate_counterexample :
    (txC5.inputs ≠ [] ∧ sigsCheck env0 txC5.inputs = Except.ok () ∧
     dupInputCheck txC5.inputs txC5.inputs = Except.ok () ∧
     (∃ o ∈ txC5.outputs, o.value = 0) ∧
     (∃ o ∈ txC5.outputs, 1 < txC5.outputs.countP (fun o2 => o2.pkhash == o.pkhash))) ∧
    Transaction.verify env0 txC5 = Except.error TransactionError.DuplicateOutput ∧
    TransactionError.DuplicateOutput ≠ TransactionError.ZeroValueOutput :=
  ⟨⟨by decide, by decide, by decide, by decide, by decide⟩, by decide, by decide⟩

theorem outputsCheck_append_skip (all pre rest' : List TxOutput)
    (hpre : ∀ o' ∈ pre, o'.value ≠ 0 ∧
      all.countP (fun o2 => o2.pkhash == o'.pkhash) ≤ 1) :
    outputsCheck all (pre ++ rest') = outputsCheck all rest' := by
  induction pre with
  | nil => rfl
  | cons o' pre ih =>
    have h := hpre o' (by simp)
    simp only [List.cons_append, outputsCheck]
    rw [if_neg h.1, if_neg (by omega)]
    exact ih (fun x hx => hpre x (by simp [hx]))

theorem outputsCheck_at_first_offender (all pre post : List TxOutput) (o : TxOutput)
    (hpre : ∀ o' ∈ pre, o'.value ≠ 0 ∧
      all.countP (fun o2 => o2.pkhash == o'.pkhash) ≤ 1) :
    (o.value = 0 →
      outputsCheck all (pre ++ o :: post) = Except.error TransactionError.ZeroValueOutput) ∧
    (o.value ≠ 0 → 1 < all.countP (fun o2 => o2.pkhash == o.pkhash) →
      outputsCheck all (pre ++ o :: post) = Except.error TransactionError.DuplicateOutput) := by
  rw [outputsCheck_append_skip all pre _ hpre]
  constructor
  · intro hz
    simp only [outputsCheck]
    rw [if_pos hz]
  · intro hz hc
    simp only [outputsCheck]
    rw [if_neg hz, if_pos hc]

/-- C5 amended: `verify` checks empty-inputs, empty-outputs, signatures and
duplicate inputs first, but the zero-value and duplicate-output checks are
interleaved over the outputs in order — for the first offending output,
`ZeroValueOutput` is returned if that output's value is 0, and
`DuplicateOutput` if its value is nonzero but its pkhash is repeated; a
transaction containing both conditions yields whichever triggers at the
earliest offending output (zero-value winning a tie on the same output), not
necessarily `ZeroValueOutput`. -/
theorem verify_output_checks_interleaved (env : Env) (tx : Transaction)
    (pre post : List TxOutput) (o : TxOutput)
    (hinp : tx.inputs ≠ [])
    (hout : tx.outputs = pre ++ o :: post)
    (hsig : sigsCheck env tx.inputs = Except.ok ())
    (hdup : dupInputCheck tx.inputs tx.inputs = Except.ok ())
    (hpre : ∀ o' ∈ pre, o'.value ≠ 0 ∧
      tx.outputs.countP (fun o2 => o2.pkhash == o'.pkhash) ≤ 1) :
    (o.value = 0 →
      Transaction.verify env tx = Except.error TransactionError.ZeroValueOutput) ∧
    (o.value ≠ 0 → 1 < tx.outputs.countP (fun o2 => o2.pkhash == o.pkhash) →
      Transaction.verify env tx = Except.error TransactionError.DuplicateOutput) := by
  have hinp' : tx.inputs.isEmpty = false := by
    cases h : tx.inputs with
    | nil => exact absurd h hinp
    | cons a l => simp
  have hne : tx.outputs.isEmpty = false := by rw [hout]; cases pre <;> simp
  rw [hout] at hpre
  have hkey := outputsCheck_at_first_offender (pre ++ o :: post) pre post o hpre
  constructor
  · intro hz
    have hoc := hkey.1 hz
    unfold Transaction.verify
    rw [hinp', hne]
    simp only [Bool.false_eq_true, if_false, hsig, hdup]
    rw [hout, hoc]
  · intro hz hc
    rw [hout] at hc
    have hoc := hkey.2 hz hc
    unfold Transaction.verify
    rw [hinp', hne]
    simp only [Bool.false_eq_true, if_false, hsig, hdup]
    rw [hout, hoc]

/-- C5 amended witness: a transaction whose first output is zero-valued (and
whose pkhash also repeats) is rejected with `ZeroValueOutput` by the
interleaved check. -/
theorem verify_output_checks_interleaved_witness :
    Transaction.verify env0 txW5 = Except.error TransactionError.ZeroValueOutput :=
  (verify_output_checks_interleaved env0 txW5 [] [⟨3, pk5⟩] ⟨0, pk5⟩ (by decide) rfl
    (by decide) (by decide) (by simp)).1 rfl

/-- Exact (unbounded) value of the UTXO referenced by an input, 0 when
missing; used only to state what the i64 computation of blockchain.rs is
being compared against. -/
def inputValue (bc : Blockchain) (inp : TxInput) : Nat :=
  match bc.utxos.getUtxo inp.txid inp.output with
  | some u => u.value
  | none => 0

def inputSumExact (bc : Blockchain) (l : List TxInput) : Nat :=
  (l.map (inputValue bc)).sum

def outputSumExact (l : List TxOutput) : Nat :=
  (l.map (fun o => o.value)).sum

theorem i64wrap_eq_self (x : Int) (h1 : -(2 ^ 63) ≤ x) (h2 : x < 2 ^ 63) :
    i64wrap x = x := by
  unfold i64wrap
  have h3 : (0 : Int) ≤ x + 2 ^ 63 := by linarith
  have h4 : x + 2 ^ 63 < 2 ^ 64 := by
    have he : (2 : Int) ^ 64 = 2 ^ 63 + 2 ^ 63 := by norm_num
    linarith
  rw [Int.emod_eq_of_lt h3 h4]
  ring

theorem u64AsI64_eq (v : Nat) (h : v < 2 ^ 63) : u64AsI64 v = (v : Int) := by
  unfold u64AsI64
  apply i64wrap_eq_self
  · have : (0 : Int) ≤ (v : Int) := Int.natCast_nonneg v
    linarith
  · exact_mod_cast h

theorem foldl_i64_exact (vs : List Nat) :
    ∀ acc : Nat, acc + vs.sum < 2 ^ 63 →
      vs.foldl (fun a v => i64add a (u64AsI64 v)) (acc : Int) =
        ((acc + vs.sum : Nat) : Int) := by
  induction vs with
  | nil => intro acc _; simp
  | cons v vs ih =>
    intro acc h
    have hp : (2 : Nat) ^ 63 = 9223372036854775808 := by norm_num
    rw [List.sum_cons, hp] at h
    have hv : v < 2 ^ 63 := by rw [hp]; omega
    have hav : acc + v < 2 ^ 63 := by rw [hp]; omega
    have harg : acc + v + vs.sum < 2 ^ 63 := by rw [hp]; omega
    have hstep : i64add (acc : Int) (u64AsI64 v) = ((acc + v : Nat) : Int) := by
      rw [u64AsI64_eq v hv]
      unfold i64add
      rw [i64wrap_eq_self]
      · push_cast; ring
      · have h0a : (0 : Int) ≤ (acc : Int) := Int.natCast_nonneg acc
        have h0v : (0 : Int) ≤ (v : Int) := Int.natCast_nonneg v
        linarith
      · have : ((acc : Int) + v) < 2 ^ 63 := by exact_mod_cast hav
        exact this
    simp only [List.foldl_cons]
    simp only [hstep]
    have hsum2 : acc + (v :: vs).sum = acc + v + vs.sum := by
      rw [List.sum_cons]; omega
    rw [hsum2]
    exact ih (acc + v) harg

theorem checkInputs_ok_of_exists (env : Env) (bc : Blockchain) :
    ∀ (l : List TxInput) (acc : Int),
      (∀ inp ∈ l, ∃ u, bc.utxos.getUtxo inp.txid inp.output = some u ∧
        env.sha256 inp.pubkey = u.pkhash) →
      checkInputs env bc l acc =
        Except.ok (l.foldl (fun a inp => i64add a (u64AsI64 (inputValue bc inp))) acc) := by
  intro l
  induction l with
  | nil => intro acc _; rfl
  | cons inp rest ih =>
    intro acc hex
    obtain ⟨u, hu, hau⟩ := hex inp (by simp)
    unfold checkInputs
    simp only [hu]
    rw [if_neg (by simp [hau])]
    have hval : inputValue bc inp = u.value := by unfold inputValue; rw [hu]
    rw [List.foldl_cons, hval]
    exact ih _ (fun x hx => hex x (by simp [hx]))

theorem outputsTotalI64_exact (outs : List TxOutput)
    (h : outputSumExact outs < 2 ^ 63) :
    outputsTotalI64 outs = (outputSumExact outs : Int) := by
  have hkey := foldl_i64_exact (outs.map (fun o => o.value)) 0
    (by simpa [outputSumExact] using h)
  rw [List.foldl_map] at hkey
  unfold outputsTotalI64 outputSumExact
  simpa using hkey

/-- C8 counterexample: a single-input transaction spending an existing,
authorized UTXO worth 2^63 + 5 with one output worth 1: the `as i64` cast
wraps the input value to a negative number, so stateful validation reports
`Overspend` even though in exact arithmetic the input sum is at least the
output sum — the sums are not computed exactly over the full u64 range. -/
theorem overspend_wraps_counterexample :
    checkTx env0 bcC8 txC8 = Except.error TransactionError.Overspend ∧
    outputSumExact txC8.outputs ≤ inputSumExact bcC8 txC8.inputs :=
  ⟨by decide, by decide⟩

/-- C8 amended: for a transaction whose inputs all reference existing,
authorized UTXOs, and whose exact input and output sums both stay below 2^63
(so no i64 wrapping occurs anywhere in the computation), stateful validation
returns `Overspend` precisely when the exact input sum is strictly less than
the exact output sum; outside those bounds the `as i64` casts wrap. -/
theorem overspend_iff_exact_sums (env : Env) (bc : Blockchain) (tx : Transaction)
    (hex : ∀ inp ∈ tx.inputs, ∃ u, bc.utxos.getUtxo inp.txid inp.output = some u ∧
      env.sha256 inp.pubkey = u.pkhash)
    (hib : inputSumExact bc tx.inputs < 2 ^ 63)
    (hob : outputSumExact tx.outputs < 2 ^ 63) :
    (checkTx env bc tx = Except.error TransactionError.Overspend ↔
      inputSumExact bc tx.inputs < outputSumExact tx.outputs) := by
  have hci := checkInputs_ok_of_exists env bc tx.inputs 0 hex
  have hfold : tx.inputs.foldl
      (fun a inp => i64add a (u64AsI64 (inputValue bc inp))) (0 : Int) =
      (inputSumExact bc tx.inputs : Int) := by
    have hkey := foldl_i64_exact (tx.inputs.map (inputValue bc)) 0
      (by simpa [inputSumExact] using hib)
    rw [List.foldl_map] at hkey
    simpa [inputSumExact] using hkey
  unfold checkTx
  rw [hci]
  simp only [hfold, outputsTotalI64_exact tx.outputs hob]
  have hsub : i64sub ((inputSumExact bc tx.inputs : Nat) : Int)
      ((outputSumExact tx.outputs : Nat) : Int) =
      ((inputSumExact bc tx.inputs : Nat) : Int) - (outputSumExact tx.outputs : Nat) := by
    unfold i64sub
    apply i64wrap_eq_self
    · have h0 : (0 : Int) ≤ ((inputSumExact bc tx.inputs : Nat) : Int) :=
        Int.natCast_nonneg _
      have h1 : ((outputSumExact tx.outputs : Nat) : Int) < 2 ^ 63 := by exact_mod_cast hob
      linarith
    · have h0 : (0 : Int) ≤ ((outputSumExact tx.outputs : Nat) : Int) :=
        Int.natCast_nonneg _
      have h1 : ((inputSumExact bc tx.inputs : Nat) : Int) < 2 ^ 63 := by exact_mod_cast hib
      linarith
  rw [hsub]
  by_cases hlt : inputSumExact bc tx.inputs < outputSumExact tx.outputs
  · rw [if_pos (by omega)]
    simp [hlt]
  · rw [if_neg (by omega)]
    simp [hlt]

/-- C8 amended witness: with in-bounds values (input 30, output 40) the
stateful check reports `Overspend` exactly because 30 < 40. -/
theorem overspend_iff_exact_sums_witness :
    checkTx env0 bcW8 txW8 = Except.error TransactionError.Overspend :=
  (overspend_iff_exact_sums env0 bcW8 txW8
    (by
      intro inp hin
      simp [txW8] at hin
      subst hin
      exact ⟨⟨30, pkC8⟩, by decide, by decide⟩)
    (by decide) (by decide)).mpr (by decide)

theorem getUtxo_none_iff (s : UTXOSet) (t : Hash) (i : Nat) :
    UTXOSet.getUtxo s t i = none ↔ ∀ e ∈ s, e.1 ≠ (t, i) := by
  unfold UTXOSet.getUtxo
  cases hf : s.find? (fun e => decide (e.1 = (t, i))) with
  | none =>
    simp only [true_iff]
    intro e he
    have hx := List.find?_eq_none.mp hf e he
    simpa using hx
  | some e =>
    simp only []
    constructor
    · intro hc; cases hc
    · intro hall
      have hmem := List.mem_of_find?_eq_some hf
      have hp := List.find?_some hf
      simp at hp
      exact absurd hp (hall e hmem)

theorem removeKey_getUtxo_self (s : UTXOSet) (t : Hash) (i : Nat) :
    (UTXOSet.removeKey s t i).getUtxo t i = none := by
  rw [getUtxo_none_iff]
  intro e he
  unfold UTXOSet.removeKey at he
  have hx := List.of_mem_filter he
  simpa using hx

theorem removeKey_getUtxo_none (s : UTXOSet) (t : Hash) (i : Nat) (a : Hash) (b : Nat)
    (h : UTXOSet.getUtxo s t i = none) :
    (UTXOSet.removeKey s a b).getUtxo t i = none := by
  rw [getUtxo_none_iff] at h ⊢
  intro e he
  exact h e (List.mem_of_mem_filter he)

theorem insertEntry_getUtxo_none (s : UTXOSet) (t : Hash) (i : Nat)
    (t0 : Hash) (i0 : Nat) (o : TxOutput) (hk : ((t0, i0) : TxKey) ≠ (t, i))
    (h : UTXOSet.getUtxo s t i = none) :
    (UTXOSet.insertEntry s t0 i0 o).getUtxo t i = none := by
  rw [getUtxo_none_iff] at h ⊢
  intro e he
  unfold UTXOSet.insertEntry at he
  rcases List.mem_cons.mp he with he1 | he2
  · rw [he1]; exact hk
  · exact h e (List.mem_of_mem_filter he2)

theorem removeFold_getUtxo_none (t : Hash) (i : Nat) :
    ∀ (l : List TxInput) (s : UTXOSet),
      (UTXOSet.getUtxo s t i = none ∨ ∃ inp ∈ l, inp.txid = t ∧ inp.output = i) →
      UTXOSet.getUtxo
        (l.foldl (fun acc inp => acc.removeKey inp.txid inp.output) s) t i = none := by
  intro l
  induction l with
  | nil =>
    intro s h
    rcases h with h | ⟨inp, hmem, _⟩
    · exact h
    · cases hmem
  | cons inp l ih =>
    intro s h
    simp only [List.foldl_cons]
    rcases h with h | ⟨inp2, hmem, hti⟩
    · exact ih _ (Or.inl (removeKey_getUtxo_none s t i _ _ h))
    · rcases List.mem_cons.mp hmem with heq | hmem2
      · subst heq
        refine ih _ (Or.inl ?_)
        rw [hti.1, hti.2]
        exact removeKey_getUtxo_self s t i
      · exact ih _ (Or.inr ⟨inp2, hmem2, hti⟩)

theorem insertFold_getUtxo_none (t : Hash) (i : Nat) (tid0 : Hash) (hid : tid0 ≠ t) :
    ∀ (l : List (Nat × TxOutput)) (s : UTXOSet),
      UTXOSet.getUtxo s t i = none →
      UTXOSet.getUtxo
        (l.foldl (fun acc jo => acc.insertEntry tid0 jo.1 jo.2) s) t i = none := by
  intro l
  induction l with
  | nil => intro s h; exact h
  | cons jo l ih =>
    intro s h
    simp only [List.foldl_cons]
    refine ih _ (insertEntry_getUtxo_none s t i tid0 jo.1 jo.2 ?_ h)
    intro hc
    exact hid (congrArg Prod.fst hc)

theorem applyTx_getUtxo_none (s : UTXOSet) (tx : Transaction) (t : Hash) (i : Nat)
    (hid : tx.id ≠ t)
    (h : UTXOSet.getUtxo s t i = none ∨
      ∃ inp ∈ tx.inputs, inp.txid = t ∧ inp.output = i) :
    UTXOSet.getUtxo (UTXOSet.applyTx s tx) t i = none := by
  unfold UTXOSet.applyTx
  exact insertFold_getUtxo_none t i tx.id hid _ _
    (removeFold_getUtxo_none t i tx.inputs s h)

theorem updateBlock_getUtxo_none (t : Hash) (i : Nat) :
    ∀ (txs : List Transaction) (s : UTXOSet),
      (∀ tx ∈ txs, tx.id ≠ t) →
      (UTXOSet.getUtxo s t i = none ∨
        ∃ tx ∈ txs, ∃ inp ∈ tx.inputs, inp.txid = t ∧ inp.output = i) →
      UTXOSet.getUtxo (txs.foldl UTXOSet.applyTx s) t i = none := by
  intro txs
  induction txs with
  | nil =>
    intro s _ h
    rcases h with h | ⟨tx, hmem, _⟩
    · exact h
    · cases hmem
  | cons tx txs ih =>
    intro s hids h
    simp only [List.foldl_cons]
    have hidtx : tx.id ≠ t := hids tx (by simp)
    rcases h with h | ⟨tx2, hmem, hinp⟩
    · exact ih _ (fun x hx => hids x (by simp [hx]))
        (Or.inl (applyTx_getUtxo_none s tx t i hidtx (Or.inl h)))
    · rcases List.mem_cons.mp hmem with heq | hmem2
      · subst heq
        exact ih _ (fun x hx => hids x (by simp [hx]))
          (Or.inl (applyTx_getUtxo_none s tx2 t i hidtx (Or.inr hinp)))
      · exact ih _ (fun x hx => hids x (by simp [hx])) (Or.inr ⟨tx2, hmem2, hinp⟩)

theorem checkInputs_ok_utxo_exists (env : Env) (bc : Blockchain) :
    ∀ (l : List TxInput) (acc : Int) (r : Int),
      checkInputs env bc l acc = Except.ok r →
      ∀ inp ∈ l, bc.utxos.getUtxo inp.txid inp.output ≠ none := by
  intro l
  induction l with
  | nil => intro acc r _ inp hmem; cases hmem
  | cons inp0 l ih =>
    intro acc r h inp hmem
    unfold checkInputs at h
    cases hu : bc.utxos.getUtxo inp0.txid inp0.output with
    | none => simp [hu] at h
    | some u =>
      simp only [hu] at h
      by_cases ha : env.sha256 inp0.pubkey ≠ u.pkhash
      · rw [if_pos ha] at h; cases h
      · rw [if_neg ha] at h
        rcases List.mem_cons.mp hmem with heq | hmem2
        · subst heq
          rw [hu]
          intro hc; cases hc
        · exact ih _ r h inp hmem2

theorem checkTxs_ok_utxo_exists (env : Env) (bc : Blockchain) :
    ∀ (txs : List Transaction),
      checkTxs env bc txs = Except.ok () →
      ∀ tx ∈ txs, ∀ inp ∈ tx.inputs, bc.utxos.getUtxo inp.txid inp.output ≠ none := by
  intro txs
  induction txs with
  | nil => intro _ tx hmem; cases hmem
  | cons tx0 txs ih =>
    intro h tx hmem inp hinp
    unfold checkTxs at h
    cases hct : checkTx env bc tx0 with
    | error e => simp [hct] at h
    | ok u =>
      simp only [hct] at h
      rcases List.mem_cons.mp hmem with heq | hmem2
      · subst heq
        unfold checkTx at hct
        cases hci : checkInputs env bc tx.inputs 0 with
        | error e => simp [hci] at hct
        | ok total =>
          exact checkInputs_ok_utxo_exists env bc tx.inputs 0 total hci inp hinp
      · exact ih h tx hmem2 inp hinp

/-- C4 counterexample: after the chain accepts B0 (creating UTXO (tid 1, 0))
and B1 (spending it), a later block B2 that also references (tid 1, 0) but
fails proof-of-work is rejected with `InvalidProofOfWork`, not
`InvalidTransactions(InvalidUTXO)` — so "any later submitted block containing
an input referencing that spent pair is rejected with InvalidUTXO" does not
hold as stated; the error is `InvalidUTXO` only when the earlier checks pass. -/
theorem spent_pair_rejection_error_counterexample :
    Blockchain.add_block env0 Blockchain.new B0 = some (S1, none) ∧
    Blockchain.add_block env0 S1 B1 = some (S2, none) ∧
    (∃ tx ∈ B1.transactions, ∃ inp ∈ tx.inputs, inp.txid = tid 1 ∧ inp.output = 0) ∧
    (∃ tx ∈ B2.transactions, ∃ inp ∈ tx.inputs, inp.txid = tid 1 ∧ inp.output = 0) ∧
    Blockchain.add_block env0 S2 B2 =
      some (S2, some BlockValidationError.InvalidProofOfWork) ∧
    BlockValidationError.InvalidProofOfWork ≠
      BlockValidationError.InvalidTransactions TransactionError.InvalidUTXO :=
  ⟨by decide, by decide, by decide, by decide, by decide, by decide⟩

/-- C4 amended: (1) after a block is accepted, any (txid, output) pair
consumed by one of its inputs is gone from the UTXO set (provided no
transaction of the block has the spent txid as its own id, which would
re-insert the key); (2) a later block that passes structural validation and
whose first non-coinbase transaction's first input references a missing pair
is rejected with `InvalidTransactions(InvalidUTXO)` — not `DuplicateInput`;
(3) a block containing any non-coinbase input referencing a missing pair is
never accepted. -/
theorem spent_utxo_not_respendable :
    (∀ (env : Env) (bc : Blockchain) (b : Block) (bc' : Blockchain) (t : Hash) (i : Nat),
      Blockchain.add_block env bc b = some (bc', none) →
      (∃ tx ∈ b.transactions, ∃ inp ∈ tx.inputs, inp.txid = t ∧ inp.output = i) →
      (∀ tx ∈ b.transactions, tx.id ≠ t) →
      bc'.utxos.getUtxo t i = none) ∧
    (∀ (env : Env) (bc : Blockchain) (b : Block) (cb tx : Transaction)
        (rest : List Transaction) (inp : TxInput) (irest : List TxInput),
      bc.utxos.getUtxo inp.txid inp.output = none →
      b.transactions = cb :: tx :: rest →
      tx.inputs = inp :: irest →
      Block.validate env b = some (Except.ok ()) →
      Blockchain.validate_block env bc b =
        some (Except.error (BlockValidationError.InvalidTransactions
          TransactionError.InvalidUTXO))) ∧
    (∀ (env : Env) (bc : Blockchain) (b : Block) (bc' : Blockchain) (t : Hash) (i : Nat),
      bc.utxos.getUtxo t i = none →
      (∃ tx ∈ b.transactions.tail, ∃ inp ∈ tx.inputs, inp.txid = t ∧ inp.output = i) →
      Blockchain.add_block env bc b ≠ some (bc', none)) := by
  refine ⟨?_, ?_, ?_⟩
  · intro env bc b bc' t i hadd hspend hids
    cases hv : Blockchain.validate_block env bc b with
    | none => simp [Blockchain.add_block, hv] at hadd
    | some r =>
      cases r with
      | error e => simp [Blockchain.add_block, hv] at hadd
      | ok u =>
        simp [Blockchain.add_block, hv] at hadd
        rw [← hadd]
        exact updateBlock_getUtxo_none t i b.transactions bc.utxos hids (Or.inr hspend)
  · intro env bc b cb tx rest inp irest hnone hb hin hV
    have hci : checkInputs env bc (inp :: irest) 0 =
        Except.error TransactionError.InvalidUTXO := by
      unfold checkInputs
      simp [hnone]
    have hct : checkTx env bc tx = Except.error TransactionError.InvalidUTXO := by
      unfold checkTx
      rw [hin, hci]
    have hstate : bc.validate_transactions_stateful env b =
        some (Except.error TransactionError.InvalidUTXO) := by
      unfold Blockchain.validate_transactions_stateful
      rw [hb]
      simp [checkTxs, hct]
    simp [Blockchain.validate_block, hV, hstate]
  · intro env bc b bc' t i hnone hspend hadd
    obtain ⟨tx, hmem, inp, hinp, ht, hi⟩ := hspend
    cases hv : Blockchain.validate_block env bc b with
    | none => simp [Blockchain.add_block, hv] at hadd
    | some r =>
      cases r with
      | error e => simp [Blockchain.add_block, hv] at hadd
      | ok u =>
        unfold Blockchain.validate_block at hv
        cases hbv : Block.validate env b with
        | none => rw [hbv] at hv; cases hv
        | some rb =>
          cases rb with
          | error e => simp [hbv] at hv
          | ok u2 =>
            simp only [hbv] at hv
            cases hs : bc.validate_transactions_stateful env b with
            | none => simp [hs] at hv
            | some rs =>
              cases rs with
              | error e => simp [hs] at hv
              | ok u3 =>
                unfold Blockchain.validate_transactions_stateful at hs
                cases hbt : b.transactions with
                | nil => rw [hbt] at hs; cases hs
                | cons hd rest =>
                  rw [hbt] at hs
                  have hok : checkTxs env bc rest = Except.ok () := by
                    cases u3
                    exact Option.some.inj hs
                  have htail : b.transactions.tail = rest := by rw [hbt]; rfl
                  rw [htail] at hmem
                  have hne := checkTxs_ok_utxo_exists env bc rest hok tx hmem inp hinp
                  rw [ht, hi] at hne
                  exact hne hnone

/-- C4 amended witness: after the concrete two-block history, the spent pair
(tid 1, 0) is gone from the UTXO set, a structurally valid block referencing
it is rejected with `InvalidTransactions(InvalidUTXO)`, and no such block can
be accepted. -/
theorem spent_utxo_not_respendable_witness :
    S2.utxos.getUtxo (tid 1) 0 = none ∧
    Blockchain.validate_block env0 S2 B3 =
      some (Except.error (BlockValidationError.InvalidTransactions
        TransactionError.InvalidUTXO)) ∧
    Blockchain.add_block env0 S2 B3 ≠ some (S2, none) :=
  ⟨spent_utxo_not_respendable.1 env0 S1 B1 S2 (tid 1) 0 (by decide)
      (by decide) (by decide),
   spent_utxo_not_respendable.2.1 env0 S2 B3 cb3 tx3 [] inp1 [] (by decide)
      rfl rfl (by decide),
   spent_utxo_not_respendable.2.2 env0 S2 B3 S2 (tid 1) 0 (by decide) (by decide)⟩

end RB
